import Mathlib

/-!
Verification of the hurricane best-track analysis program
(`Hurricane_Data_Analysis.py`) against its natural-language specification.

The Python source is shallowly embedded below.  Conventions:

* Python `float` arithmetic on the quantities under scrutiny is modelled
  exactly over `ℚ` (every value the claims touch is exactly representable).
* Python machine integers are modelled by `ℤ`/`ℕ`.
* Fallible Python operations (`strptime`, `int(...)`, division, indexing)
  are modelled with `Option`: `none` is an uncaught Python exception.
* Strings are Lean `String`s; Python string comparison is code-point
  lexicographic, modelled explicitly by `lexLtCh`.
-/

namespace Hurricane

/-- Digit characters to their value; `digitsVal` is the number denoted by a
digit string, most significant first (the accumulator form used by `int`). -/
def digitsVal (l : List Char) : ℕ :=
  l.foldl (fun n c => 10 * n + (c.toNat - 48)) 0

/-- Whitespace stripped by Python `int(str)` before parsing. -/
def isWS (c : Char) : Bool :=
  c = ' ' || c = '\n' || c = '\t' || c = '\r'

/-- Sign-and-digits part of Python `int(s)` after whitespace stripping. -/
def pyIntCore : List Char → Option ℤ
  | [] => none
  | c :: rest =>
    if c = '-' then
      if rest ≠ [] ∧ rest.all Char.isDigit then some (-(digitsVal rest : ℤ)) else none
    else if c = '+' then
      if rest ≠ [] ∧ rest.all Char.isDigit then some ((digitsVal rest : ℤ)) else none
    else
      if (c :: rest).all Char.isDigit then some ((digitsVal (c :: rest) : ℤ)) else none

/-- Model of Python `int(s)` on a string: strip whitespace, optional sign,
then a non-empty run of decimal digits; anything else raises `ValueError`
(modelled as `none`). -/
def pyInt (s : String) : Option ℤ :=
  pyIntCore (((s.data.dropWhile isWS).reverse.dropWhile isWS).reverse)

/-- Python `/` on floats: raises `ZeroDivisionError` on a zero divisor. -/
def pyDiv (a b : ℚ) : Option ℚ :=
  if b = 0 then none else some (a / b)

/-- Python `int(x)` on a float: truncation toward zero. -/
def pytrunc (q : ℚ) : ℤ :=
  if 0 ≤ q then ⌊q⌋ else ⌈q⌉

/-- Code-point lexicographic order on character lists: Python `<` on `str`. -/
def lexLtCh : List Char → List Char → Bool
  | [], [] => false
  | [], _ :: _ => true
  | _ :: _, [] => false
  | a :: as, b :: bs =>
    if a.toNat < b.toNat then true
    else if b.toNat < a.toNat then false
    else lexLtCh as bs

/-- Python `s < t` on strings. -/
def strLtB (s t : String) : Bool :=
  lexLtCh s.data t.data

/-- Python `max` over a list of strings (first maximal element is kept; on
the empty list the program would raise, here the junk value `""` results —
every use below is guarded by non-emptiness of the list). -/
def pyMaxStrD (l : List String) : String :=
  l.foldl (fun m s => if strLtB m s then s else m) (l.headD "")

/-- Python `max` over a list of rationals, `headD 0` junk on `[]`. -/
def pyMaxQ (l : List ℚ) : ℚ :=
  l.foldl max (l.headD 0)

/-! ### Timestamps: `datetime.strptime(_, "%Y%m%d%H%M")` and `hour_diff` -/

/-- Gregorian leap-year rule used by `datetime`. -/
def isLeap (y : ℕ) : Prop :=
  (y % 4 = 0 ∧ y % 100 ≠ 0) ∨ y % 400 = 0

instance (y : ℕ) : Decidable (isLeap y) := by
  unfold isLeap; infer_instance

/-- Length of month `m` (1-based). -/
def monthDays (leap : Bool) (m : ℕ) : ℕ :=
  match m with
  | 1 => 31 | 2 => if leap then 29 else 28 | 3 => 31 | 4 => 30
  | 5 => 31 | 6 => 30 | 7 => 31 | 8 => 31
  | 9 => 30 | 10 => 31 | 11 => 30 | 12 => 31
  | _ => 0

/-- Days in the months strictly before month `m`. -/
def daysBefore (leap : Bool) (m : ℕ) : ℕ :=
  (List.range (m - 1)).foldl (fun a i => a + monthDays leap (i + 1)) 0

/-- Proleptic-Gregorian day number of a calendar date (day 0 = 0001-01-01,
matching `datetime.toordinal` up to a constant shift, which cancels in
differences). -/
def toOrdinal (y m d : ℕ) : ℕ :=
  365 * (y - 1) + (y - 1) / 4 + (y - 1) / 400 - (y - 1) / 100
    + daysBefore (decide (isLeap y)) m + (d - 1)

/-- `datetime.strptime(s, "%Y%m%d%H%M")`, returning the timestamp as total
minutes on the proleptic-Gregorian line; `none` models `ValueError`.  The
combined key produced by the program is 12 digits: 4-digit year, 2-digit
month, day, hour and minute, with `datetime`-validated ranges. -/
def parseTS (s : String) : Option ℕ :=
  let cs := s.data
  if cs.length = 12 ∧ cs.all Char.isDigit then
    let y := digitsVal (cs.take 4)
    let mo := digitsVal ((cs.drop 4).take 2)
    let d := digitsVal ((cs.drop 6).take 2)
    let h := digitsVal ((cs.drop 8).take 2)
    let mi := digitsVal ((cs.drop 10).take 2)
    if 1 ≤ y ∧ 1 ≤ mo ∧ mo ≤ 12 ∧ 1 ≤ d ∧ d ≤ monthDays (decide (isLeap y)) mo
        ∧ h ≤ 23 ∧ mi ≤ 59 then
      some (toOrdinal y mo d * 1440 + h * 60 + mi)
    else none
  else none

/-- `hour_diff(time1, time2)` from the source:
`abs(s2 - s1).seconds / 3600.0`.  The `timedelta.seconds` attribute is the
seconds component *within the last day* of the (absolute) difference, i.e.
the total seconds reduced mod 86400 — whole days are discarded. -/
def hour_diff (time1 time2 : String) : Option ℚ :=
  match parseTS time1, parseTS time2 with
  | some a, some b =>
    some ((((if a ≤ b then b - a else a - b) * 60 % 86400 : ℕ) : ℚ) / 3600)
  | _, _ => none

/-! ### `norm` and quadrant arithmetic -/

/-- `norm(angle)` from the source: subtracts 360 only on strict excess. -/
def norm (angle : ℚ) : ℚ :=
  if angle > 360 then angle - 360 else angle

/-- The quadrant list `indices1` built by `check` (source lines 154-163):
quadrant `q` is included exactly when one of the three wind-radii slots for
that quadrant (`q`, `q+4`, `q+8`) appears among the input indices. -/
def quadList (indices : List ℕ) : List ℤ :=
  (if 0 ∈ indices ∨ 4 ∈ indices ∨ 8 ∈ indices then [(0 : ℤ)] else []) ++
  (if 1 ∈ indices ∨ 5 ∈ indices ∨ 9 ∈ indices then [(1 : ℤ)] else []) ++
  (if 2 ∈ indices ∨ 6 ∈ indices ∨ 10 ∈ indices then [(2 : ℤ)] else []) ++
  (if 3 ∈ indices ∨ 7 ∈ indices ∨ 11 ∈ indices then [(3 : ℤ)] else [])

/-- `check(indices, bearing)` from the source: returns `1` when the bucket
of `bearing+45` or of `bearing+90` (after `norm`) names a quadrant holding a
maximal wind radius, and Python `None` (here `none`) otherwise. -/
def check (indices : List ℕ) (bearing : ℚ) : Option ℤ :=
  let min_bearing := pytrunc (norm (bearing + 45) / 90)
  let max_bearing := pytrunc (norm (bearing + 90) / 90)
  if min_bearing ∈ quadList indices ∨ max_bearing ∈ quadList indices then some 1
  else none

theorem mem_ite_single {c : Prop} [Decidable c] (q k : ℤ) :
    q ∈ (if c then [k] else []) ↔ c ∧ q = k := by
  split_ifs with h <;> simp [h]

theorem mem_quadList {indices : List ℕ} (hidx : ∀ i ∈ indices, i < 12) (q : ℤ) :
    q ∈ quadList indices ↔ q ∈ indices.map (fun i : ℕ => (i : ℤ) % 4) := by
  constructor
  · intro hq
    simp only [quadList, List.mem_append, mem_ite_single] at hq
    rcases hq with ((⟨hc, rfl⟩ | ⟨hc, rfl⟩) | ⟨hc, rfl⟩) | ⟨hc, rfl⟩ <;>
      rcases hc with h | h | h <;>
      exact List.mem_map.mpr ⟨_, h, by norm_num⟩
  · intro hq
    rcases List.mem_map.mp hq with ⟨i, hi, rfl⟩
    have hi12 : i < 12 := hidx i hi
    interval_cases i <;>
      (simp only [quadList, List.mem_append, mem_ite_single]; norm_num; tauto)

theorem pytrunc_eq_floor {q : ℚ} (h : 0 ≤ q) : pytrunc q = ⌊q⌋ := by
  simp [pytrunc, h]

theorem norm_nonneg_of {a : ℚ} (h : 0 ≤ a) : 0 ≤ norm a := by
  unfold norm; split_ifs with h' <;> linarith

/-- C7: for index sets drawn from positions 0..11 and bearings in [0,360),
`check` confirms exactly when the `bearing+45` bucket or the `bearing+90`
bucket (floored quadrant ids through `norm`) appears among the indices
mapped by `mod 4`, and answers Inapplicable (`None`) otherwise; in
particular `check([0], 10) = 1` and `check([2], 10) = None`. -/
theorem check_confirmed_iff_quadrant_match (indices : List ℕ) (bearing : ℚ)
    (hidx : ∀ i ∈ indices, i < 12) (h0 : 0 ≤ bearing) (h360 : bearing < 360) :
    (check indices bearing = some 1 ↔
      (⌊norm (bearing + 45) / 90⌋ ∈ indices.map (fun i : ℕ => (i : ℤ) % 4) ∨
       ⌊norm (bearing + 90) / 90⌋ ∈ indices.map (fun i : ℕ => (i : ℤ) % 4))) ∧
    (check indices bearing = none ↔
      ¬ (⌊norm (bearing + 45) / 90⌋ ∈ indices.map (fun i : ℕ => (i : ℤ) % 4) ∨
         ⌊norm (bearing + 90) / 90⌋ ∈ indices.map (fun i : ℕ => (i : ℤ) % 4))) ∧
    check [0] 10 = some 1 ∧ check [2] 10 = none := by
  have hn45 : (0 : ℚ) ≤ norm (bearing + 45) := norm_nonneg_of (by linarith)
  have hn90 : (0 : ℚ) ≤ norm (bearing + 90) := norm_nonneg_of (by linarith)
  have hmin : pytrunc (norm (bearing + 45) / 90) = ⌊norm (bearing + 45) / 90⌋ :=
    pytrunc_eq_floor (div_nonneg hn45 (by norm_num))
  have hmax : pytrunc (norm (bearing + 90) / 90) = ⌊norm (bearing + 90) / 90⌋ :=
    pytrunc_eq_floor (div_nonneg hn90 (by norm_num))
  have hq := mem_quadList hidx
  have n1 : norm ((10 : ℚ) + 45) = 55 := by norm_num [norm]
  have n2 : norm ((10 : ℚ) + 90) = 100 := by norm_num [norm]
  have f1 : pytrunc (norm ((10 : ℚ) + 45) / 90) = 0 := by
    rw [n1, pytrunc_eq_floor (by norm_num), Int.floor_eq_iff]
    norm_num
  have f2 : pytrunc (norm ((10 : ℚ) + 90) / 90) = 1 := by
    rw [n2, pytrunc_eq_floor (by norm_num), Int.floor_eq_iff]
    norm_num
  refine ⟨?_, ?_, ?_, ?_⟩
  · simp only [check, hmin, hmax, hq]
    split_ifs with h
    · exact iff_of_true rfl h
    · exact iff_of_false (by simp) h
  · simp only [check, hmin, hmax, hq]
    split_ifs with h
    · exact iff_of_false (by simp) (not_not_intro h)
    · exact iff_of_true rfl h
  · simp [check, f1, f2, quadList]
  · simp [check, f1, f2, quadList]

/-- C7 witness: the characterization applied at `indices = [2]`,
`bearing = 10`, with all hypotheses discharged concretely. -/
theorem check_confirmed_iff_quadrant_match_witness :
    check [2] 10 = none ↔
      ¬ (⌊norm ((10 : ℚ) + 45) / 90⌋ ∈ [2].map (fun i : ℕ => (i : ℤ) % 4) ∨
         ⌊norm ((10 : ℚ) + 90) / 90⌋ ∈ [2].map (fun i : ℕ => (i : ℤ) % 4)) :=
  (check_confirmed_iff_quadrant_match [2] 10 (by decide) (by norm_num)
    (by norm_num)).2.1

/-! ### Maximum wind-radii index selection (source lines 199, 224, 227) -/

/-- `[i for i, x in enumerate(radii) if x == max(radii)]` from source line
227: the positions whose *string* equals the lexicographically maximal
string of the raw field list `radii = row.split(',')[8:]`. -/
def indicesOf (radii : List String) : List ℕ :=
  (radii.enum.filter (fun p => p.2 == pyMaxStrD radii)).map Prod.fst

/-- Spec-side value vector (claim wording, for comparison with the code):
the integer values of the 12 wind-radii fields 8..19. -/
def specVals (radii : List String) : List ℤ :=
  (radii.take 12).map (fun s => (pyInt s).getD 0)

/-- Spec-side numeric maximum of the 12 wind-radii integers. -/
def specNumMax (radii : List String) : ℤ :=
  (specVals radii).foldl max ((specVals radii).headD 0)

/-- Spec-side index set (claim wording, for comparison with the code): the
positions 0..11 whose integer value equals the numeric maximum. -/
def specMaxIndices (radii : List String) : List ℕ :=
  ((specVals radii).enum.filter (fun p => p.2 == specNumMax radii)).map Prod.fst

theorem isDigit_bounds {c : Char} (h : c.isDigit = true) :
    48 ≤ c.toNat ∧ c.toNat ≤ 57 := by
  simp [Char.isDigit, UInt32.le_def, BitVec.le_def] at h
  exact h

theorem digitsVal_foldl (l : List Char) (a : ℕ) :
    List.foldl (fun n c => 10 * n + (c.toNat - 48)) a l
      = a * 10 ^ l.length + digitsVal l := by
  induction l generalizing a with
  | nil => simp [digitsVal]
  | cons c t ih =>
    have hdc : digitsVal (c :: t) = (c.toNat - 48) * 10 ^ t.length + digitsVal t := by
      show List.foldl _ 0 (c :: t) = _
      rw [List.foldl_cons, ih]
      norm_num
    rw [List.foldl_cons, ih, hdc, List.length_cons]
    ring

theorem digitsVal_cons (c : Char) (t : List Char) :
    digitsVal (c :: t) = (c.toNat - 48) * 10 ^ t.length + digitsVal t := by
  show List.foldl _ 0 (c :: t) = _
  rw [List.foldl_cons, digitsVal_foldl]
  norm_num

theorem digitsVal_lt (l : List Char) (h : ∀ c ∈ l, c.isDigit) :
    digitsVal l < 10 ^ l.length := by
  induction l with
  | nil => simp [digitsVal]
  | cons c t ih =>
    have hc := isDigit_bounds (h c (by simp))
    have ht := ih (fun x hx => h x (by simp [hx]))
    rw [digitsVal_cons, List.length_cons, pow_succ]
    calc (c.toNat - 48) * 10 ^ t.length + digitsVal t
        < (c.toNat - 48) * 10 ^ t.length + 10 ^ t.length :=
          Nat.add_lt_add_left ht _
      _ = (c.toNat - 48 + 1) * 10 ^ t.length := by ring
      _ ≤ 10 * 10 ^ t.length := Nat.mul_le_mul_right _ (by omega)
      _ = 10 ^ t.length * 10 := by ring

theorem lexLt_of_digit_head {a b : Char} {as bs : List Char}
    (hlen : as.length = bs.length) (ha : a.isDigit = true) (hb : b.isDigit = true)
    (hA : ∀ c ∈ as, c.isDigit) (hab : a.toNat < b.toNat) :
    digitsVal (a :: as) < digitsVal (b :: bs) := by
  have hba := isDigit_bounds ha
  have hbb := isDigit_bounds hb
  rw [digitsVal_cons, digitsVal_cons, hlen]
  have hs : digitsVal as < 10 ^ as.length := digitsVal_lt as hA
  rw [hlen] at hs
  calc (a.toNat - 48) * 10 ^ bs.length + digitsVal as
      < (a.toNat - 48) * 10 ^ bs.length + 10 ^ bs.length := Nat.add_lt_add_left hs _
    _ = (a.toNat - 48 + 1) * 10 ^ bs.length := by ring
    _ ≤ (b.toNat - 48) * 10 ^ bs.length := Nat.mul_le_mul_right _ (by omega)
    _ ≤ (b.toNat - 48) * 10 ^ bs.length + digitsVal bs := Nat.le_add_right _ _

theorem lexLtCh_iff_digitsVal :
    ∀ {l1 l2 : List Char}, l1.length = l2.length →
      (∀ c ∈ l1, c.isDigit) → (∀ c ∈ l2, c.isDigit) →
      (lexLtCh l1 l2 = true ↔ digitsVal l1 < digitsVal l2) := by
  intro l1
  induction l1 with
  | nil =>
    intro l2 hlen _ _
    cases l2 with
    | nil => simp [lexLtCh, digitsVal]
    | cons b bs => simp at hlen
  | cons a as ih =>
    intro l2 hlen h1 h2
    cases l2 with
    | nil => simp at hlen
    | cons b bs =>
      have hlen' : as.length = bs.length := by simpa using hlen
      have hda : a.isDigit = true := h1 a (by simp)
      have hdb : b.isDigit = true := h2 b (by simp)
      have hAs : ∀ c ∈ as, c.isDigit := fun c hc => h1 c (by simp [hc])
      have hBs : ∀ c ∈ bs, c.isDigit := fun c hc => h2 c (by simp [hc])
      show (if a.toNat < b.toNat then true
            else if b.toNat < a.toNat then false else lexLtCh as bs) = true ↔ _
      by_cases hab : a.toNat < b.toNat
      · rw [if_pos hab]
        exact iff_of_true rfl (lexLt_of_digit_head hlen' hda hdb hAs hab)
      · by_cases hba : b.toNat < a.toNat
        · rw [if_neg hab, if_pos hba]
          have := lexLt_of_digit_head hlen'.symm hdb hda hBs hba
          exact iff_of_false (by simp) (by omega)
        · have heqn : a.toNat = b.toNat := by omega
          have heq : a = b := Char.ext (UInt32.ext heqn)
          subst heq
          rw [if_neg hab, if_neg hba, ih hlen' hAs hBs,
            digitsVal_cons a as, digitsVal_cons a bs, hlen']
          exact (Nat.add_lt_add_iff_left).symm

theorem digit_lists_eq_iff :
    ∀ {l1 l2 : List Char}, l1.length = l2.length →
      (∀ c ∈ l1, c.isDigit) → (∀ c ∈ l2, c.isDigit) →
      (l1 = l2 ↔ digitsVal l1 = digitsVal l2) := by
  intro l1
  induction l1 with
  | nil =>
    intro l2 hlen _ _
    cases l2 with
    | nil => simp
    | cons b bs => simp at hlen
  | cons a as ih =>
    intro l2 hlen h1 h2
    cases l2 with
    | nil => simp at hlen
    | cons b bs =>
      have hlen' : as.length = bs.length := by simpa using hlen
      have hda : a.isDigit = true := h1 a (by simp)
      have hdb : b.isDigit = true := h2 b (by simp)
      have hAs : ∀ c ∈ as, c.isDigit := fun c hc => h1 c (by simp [hc])
      have hBs : ∀ c ∈ bs, c.isDigit := fun c hc => h2 c (by simp [hc])
      constructor
      · intro h; rw [h]
      · intro hv
        rcases Nat.lt_trichotomy a.toNat b.toNat with hlt | heq | hgt
        · have := lexLt_of_digit_head hlen' hda hdb hAs hlt
          omega
        · have hab : a = b := Char.ext (UInt32.ext heq)
          subst hab
          have htail : digitsVal as = digitsVal bs := by
            rw [digitsVal_cons, digitsVal_cons, hlen'] at hv
            exact Nat.add_left_cancel hv
          rw [(ih hlen' hAs hBs).mpr htail]
        · have := lexLt_of_digit_head hlen'.symm hdb hda hBs hgt
          omega

theorem strMaxStep_mem (x : String) (l : List String) :
    l.foldl (fun m s => if strLtB m s then s else m) x ∈ x :: l := by
  induction l generalizing x with
  | nil => simp
  | cons s t ih =>
    rw [List.foldl_cons]
    rcases List.mem_cons.mp (ih (if strLtB x s then s else x)) with h | h
    · rw [h]; split_ifs <;> simp
    · simp [h]

theorem foldmax_val (L : ℕ) :
    ∀ (l : List String) (x : String),
      x.data.length = L → (∀ c ∈ x.data, c.isDigit) →
      (∀ s ∈ l, s.data.length = L ∧ ∀ c ∈ s.data, c.isDigit) →
      digitsVal ((l.foldl (fun m s => if strLtB m s then s else m) x).data)
        = (l.map (fun s => digitsVal s.data)).foldl max (digitsVal x.data) := by
  intro l
  induction l with
  | nil => intro x _ _ _; rfl
  | cons s t ih =>
    intro x hxL hxd hl
    obtain ⟨hsL, hsd⟩ := hl s (by simp)
    have hlt : ∀ u ∈ t, u.data.length = L ∧ ∀ c ∈ u.data, c.isDigit :=
      fun u h => hl u (by simp [h])
    rw [List.foldl_cons, List.map_cons, List.foldl_cons]
    have hiff := @lexLtCh_iff_digitsVal x.data s.data
      (by rw [hxL, hsL]) hxd hsd
    by_cases hc : strLtB x s = true
    · rw [if_pos hc, ih s hsL hsd hlt]
      congr 1
      have hv : digitsVal x.data < digitsVal s.data := hiff.mp hc
      omega
    · rw [if_neg hc, ih x hxL hxd hlt]
      congr 1
      have hv : ¬ digitsVal x.data < digitsVal s.data := fun h => hc (hiff.mpr h)
      omega

theorem foldl_max_cast (l : List ℕ) :
    ∀ x : ℕ, (l.map (fun n : ℕ => (n : ℤ))).foldl max (x : ℤ)
      = ((l.foldl max x : ℕ) : ℤ) := by
  induction l with
  | nil => intro x; rfl
  | cons n t ih =>
    intro x
    rw [List.map_cons, List.foldl_cons, List.foldl_cons, ← Nat.cast_max, ih]

theorem dropWhile_eq_self_of_all {l : List Char} (h : ∀ c ∈ l, isWS c = false) :
    l.dropWhile isWS = l := by
  cases l with
  | nil => rfl
  | cons c t => rw [List.dropWhile_cons, h c (by simp)]; simp

theorem not_isWS_of_isDigit {c : Char} (h : c.isDigit = true) : isWS c = false := by
  have hb := isDigit_bounds h
  by_contra hws
  have hws' : isWS c = true := by revert hws; cases isWS c <;> simp
  simp only [isWS, Bool.or_eq_true, decide_eq_true_eq] at hws'
  rcases hws' with ((h1 | h1) | h1) | h1 <;> subst h1 <;> exact absurd hb (by decide)

theorem isDigit_not_sign {c : Char} (h : c.isDigit = true) : c ≠ '-' ∧ c ≠ '+' := by
  constructor <;> rintro rfl <;> exact absurd h (by decide)

theorem pyInt_digits {s : String} (hne : s.data ≠ []) (hd : ∀ c ∈ s.data, c.isDigit) :
    pyInt s = some ((digitsVal s.data : ℤ)) := by
  have hws : ∀ c ∈ s.data, isWS c = false := fun c hc => not_isWS_of_isDigit (hd c hc)
  have h1 : s.data.dropWhile isWS = s.data := dropWhile_eq_self_of_all hws
  have h2 : s.data.reverse.dropWhile isWS = s.data.reverse :=
    dropWhile_eq_self_of_all (fun c hc => hws c (List.mem_reverse.mp hc))
  show pyIntCore _ = _
  rw [h1, h2, List.reverse_reverse]
  rcases hsd : s.data with _ | ⟨c, t⟩
  · exact absurd hsd hne
  · rw [hsd] at hd
    obtain ⟨hd1, hd2⟩ := isDigit_not_sign (hd c (by simp))
    show (if c = '-' then _ else if c = '+' then _ else
      if (c :: t).all Char.isDigit then some ((digitsVal (c :: t) : ℤ)) else none) = _
    rw [if_neg hd1, if_neg hd2, if_pos (List.all_eq_true.mpr hd)]

theorem enumFrom_filter_congr {α β : Type} (f : α → β) (p : α → Bool) (q : β → Bool) :
    ∀ l : List α, (∀ x ∈ l, p x = q (f x)) → ∀ n : ℕ,
      ((l.enumFrom n).filter (fun pr => p pr.2)).map Prod.fst =
        (((l.map f).enumFrom n).filter (fun pr => q pr.2)).map Prod.fst := by
  intro l
  induction l with
  | nil => intro _ _; rfl
  | cons x t ih =>
    intro h n
    have hx : p x = q (f x) := h x (by simp)
    have htail := ih (fun y hy => h y (by simp [hy])) (n + 1)
    simp only [List.map_cons, List.enumFrom, List.filter_cons]
    by_cases hpx : p x = true
    · rw [if_pos (by simpa using hpx), if_pos (by simp [← hx]; simpa using hpx)]
      simp only [List.map_cons]
      rw [htail]
    · rw [if_neg (by simpa using hpx), if_neg (by simp [← hx]; simpa using hpx)]
      exact htail

/-- C4 (amended): the index set handed to the checker is the set of
positions of `row.split(',')[8:]` whose raw field string equals the
lexicographically greatest of those strings; this coincides with the
claim's numeric-maximum positions 0..11 whenever the radii slice consists
of exactly 12 uniformly-formatted fields — all the same length and made of
decimal digits only (as in well-formed fixed-width non-negative data). -/
theorem max_indices_agree_on_uniform_digit_fields (radii : List String) (L : ℕ)
    (h12 : radii.length = 12)
    (hgood : ∀ s ∈ radii, s.data.length = L ∧ s.data ≠ [] ∧ ∀ c ∈ s.data, c.isDigit) :
    indicesOf radii = specMaxIndices radii := by
  obtain ⟨r₀, rs, rfl⟩ : ∃ a l, radii = a :: l := by
    cases radii with
    | nil => simp at h12
    | cons a l => exact ⟨a, l, rfl⟩
  have hM_mem : pyMaxStrD (r₀ :: rs) ∈ r₀ :: rs := by
    rcases List.mem_cons.mp (strMaxStep_mem r₀ (r₀ :: rs)) with h | h
    · rw [pyMaxStrD]; rw [show (r₀ :: rs).headD "" = r₀ from rfl]; rw [h]; simp
    · exact h
  obtain ⟨hML, hMne, hMd⟩ := hgood _ hM_mem
  obtain ⟨hrL, hrne, hrd⟩ := hgood r₀ (by simp)
  have hvals : specVals (r₀ :: rs) = (r₀ :: rs).map (fun s => (digitsVal s.data : ℤ)) := by
    rw [specVals, show (r₀ :: rs).take 12 = r₀ :: rs from by
      rw [← h12]; exact List.take_length _]
    refine List.map_congr_left fun s hs => ?_
    obtain ⟨_, hne, hd⟩ := hgood s hs
    rw [pyInt_digits hne hd]
    rfl
  have hvalM : digitsVal (pyMaxStrD (r₀ :: rs)).data
      = ((r₀ :: rs).map (fun s => digitsVal s.data)).foldl max (digitsVal r₀.data) :=
    foldmax_val L (r₀ :: rs) r₀ hrL hrd
      (fun s hs => ⟨(hgood s hs).1, (hgood s hs).2.2⟩)
  have hcast : (r₀ :: rs).map (fun s => (digitsVal s.data : ℤ))
      = ((r₀ :: rs).map (fun s => digitsVal s.data)).map (fun n : ℕ => (n : ℤ)) := by
    rw [List.map_map]; rfl
  have hm : specNumMax (r₀ :: rs) = ((digitsVal (pyMaxStrD (r₀ :: rs)).data : ℕ) : ℤ) := by
    rw [specNumMax, hvals, hcast]
    simp only [List.map_cons, List.headD_cons]
    rw [show ((digitsVal r₀.data : ℕ) : ℤ) :: List.map (fun n : ℕ => (n : ℤ))
          (List.map (fun s => digitsVal s.data) rs)
        = ((digitsVal r₀.data :: List.map (fun s => digitsVal s.data) rs).map
            (fun n : ℕ => (n : ℤ))) from by simp]
    rw [foldl_max_cast, hvalM]
    rfl
  rw [indicesOf, specMaxIndices, hvals]
  exact enumFrom_filter_congr (fun s => (digitsVal s.data : ℤ))
    (fun s => s == pyMaxStrD (r₀ :: rs)) (fun v => v == specNumMax (r₀ :: rs))
    (r₀ :: rs)
    (fun s hs => by
      obtain ⟨hsL, hsne, hsd⟩ := hgood s hs
      rw [hm, Bool.eq_iff_iff]
      simp only [beq_iff_eq, Int.natCast_inj]
      rw [show (s = pyMaxStrD (r₀ :: rs)) ↔ s.data = (pyMaxStrD (r₀ :: rs)).data from
        ⟨fun h => h ▸ rfl, String.ext⟩]
      exact digit_lists_eq_iff (by rw [hsL, hML]) hsd hMd) 0

/-- C4 witness: the amended agreement applied to a concrete uniform-width
digit-only radii vector, all hypotheses discharged. -/
theorem max_indices_agree_witness :
    indicesOf ["060", "110", "000", "000", "000", "000", "000", "000", "000", "000", "000", "110"]
      = specMaxIndices
        ["060", "110", "000", "000", "000", "000", "000", "000", "000", "000", "000", "110"] :=
  max_indices_agree_on_uniform_digit_fields _ 3 (by decide)
    (by decide)

/-- C4 counterexample: on a 12-field radii vector `["60","060","0",...]`
both fields 0 and 1 hold the numeric maximum 60, and the guard passes
(`int(max(radii)) = 60`), yet the code hands the checker only position 0,
because `max` compares the raw field *strings* lexicographically and tests
string equality, not numeric equality. -/
theorem max_indices_string_vs_numeric_example :
    pyInt (pyMaxStrD ["60", "060", "0", "0", "0", "0", "0", "0", "0", "0", "0", "0"])
        = some 60 ∧
    indicesOf ["60", "060", "0", "0", "0", "0", "0", "0", "0", "0", "0", "0"] = [0] ∧
    specMaxIndices ["60", "060", "0", "0", "0", "0", "0", "0", "0", "0", "0", "0"]
        = [0, 1] ∧
    (1 : ℕ) ∈ specMaxIndices ["60", "060", "0", "0", "0", "0", "0", "0", "0", "0", "0", "0"] ∧
    (1 : ℕ) ∉ indicesOf ["60", "060", "0", "0", "0", "0", "0", "0", "0", "0", "0", "0"] := by
  refine ⟨by decide, by decide, by decide, by decide, by decide⟩

/-- C1: `hour_diff` on two timestamps 30 hours apart.  The claim (and the
function's own docstring) demand 30.0; `timedelta.seconds` discards the
whole day, and the code returns 6.0. -/
theorem hour_diff_drops_whole_days :
    hour_diff "200001010000" "200001020600" = some 6 ∧ (6 : ℚ) ≠ 30 := by
  constructor
  · have h1 : parseTS "200001010000" = some 1051371360 := by decide
    have h2 : parseTS "200001020600" = some 1051373160 := by decide
    rw [hour_diff, h1, h2]
    norm_num
  · norm_num

/-- C5 counterexample: at angle 360 the claim demands subtraction (`a ≥ 360`)
and a result in `[0, 360)` with quadrant id in `{0,1,2,3}`; the code's
strict test leaves 360 unchanged, and the quadrant id computed from it is 4. -/
theorem norm_at_360_unnormalized :
    (360 : ℚ) ≥ 360 ∧ norm 360 ≠ 360 - 360 ∧ ¬ norm (360 : ℚ) < 360 ∧
      pytrunc (norm 360 / 90) = 4 := by
  refine ⟨le_refl _, ?_, ?_, ?_⟩
  · norm_num [norm]
  · norm_num [norm]
  · norm_num [norm, pytrunc]

/-- C5 (amended): `norm` subtracts 360 exactly when the angle strictly
exceeds 360 and is the identity otherwise; consequently on `[0,460)` minus
the single point 360 the result lies in `[0,360)` and the derived quadrant
id `int(norm(a)/90)` is one of 0,1,2,3. -/
theorem norm_strict_wrap (a : ℚ) :
    (360 < a → norm a = a - 360) ∧ (a ≤ 360 → norm a = a) ∧
      (0 ≤ a → a < 460 → a ≠ 360 →
        0 ≤ norm a ∧ norm a < 360 ∧ pytrunc (norm a / 90) ∈ ([0, 1, 2, 3] : List ℤ)) := by
  refine ⟨fun h => by simp [norm, h], fun h => by simp [norm, not_lt.mpr h], ?_⟩
  intro h0 h460 hne
  have hbounds : 0 ≤ norm a ∧ norm a < 360 := by
    unfold norm
    split_ifs with h
    · constructor <;> linarith
    · have : a < 360 := lt_of_le_of_ne (not_lt.mp h) hne
      constructor <;> linarith
  obtain ⟨hlo, hhi⟩ := hbounds
  refine ⟨hlo, hhi, ?_⟩
  have hq0 : 0 ≤ norm a / 90 := by positivity
  have hfl0 : 0 ≤ ⌊norm a / 90⌋ := Int.floor_nonneg.mpr hq0
  have hfl4 : ⌊norm a / 90⌋ < 4 := by
    rw [Int.floor_lt]
    push_cast
    linarith
  have : pytrunc (norm a / 90) = ⌊norm a / 90⌋ := by simp [pytrunc, hq0]
  rw [this]
  interval_cases h : ⌊norm a / 90⌋ <;> simp

/-! ### Per-leg outcomes and the global confirmation rate
(source lines 224-228 and 267-269) -/

/-- The three values the source appends to `result`: `1` (hypothesis
confirmed by `check`), Python `None` (evaluated by `check` and rejected),
and `-1` (forced by the −999/0/0-bearing guard, comment: "ignore the
record"). -/
inductive Res
  | one
  | noneV
  | neg
deriving DecidableEq

/-- Source lines 224-228: the outcome appended to `result` for one leg,
from the raw radii fields of the departed observation and the leg bearing.
`none` models the uncaught `ValueError` of `int(max(radii))` on
unparseable data. -/
def legOutcome (radii : List String) (bearing : ℚ) : Option Res :=
  match pyInt (pyMaxStrD radii) with
  | none => none
  | some m =>
    if m = -999 ∨ m = 0 ∨ bearing = 0 then some Res.neg
    else
      match check (indicesOf radii) bearing with
      | some _ => some Res.one
      | none => some Res.noneV

/-- Source lines 267-269: `rate = (c3[1]/(c3[1]+c3[None])) * 100.0`.
`none` models the `ZeroDivisionError` raised when the denominator —
which counts only the `1` and `None` entries, not the `-1` entries — is 0. -/
def pyRate (rs : List Res) : Option ℚ :=
  if rs.count Res.one + rs.count Res.noneV = 0 then none
  else some ((rs.count Res.one : ℚ)
    / ((rs.count Res.one : ℚ) + (rs.count Res.noneV : ℚ)) * 100)

/-- Spec-side rate (claim wording, for comparison with the code): every
leg that is not Confirmed counts as Inapplicable in the denominator, so
the denominator is the total number of legs; fails only with no legs. -/
def specRate (rs : List Res) : Option ℚ :=
  if rs.length = 0 then none
  else some ((rs.count Res.one : ℚ) / (rs.length : ℚ) * 100)

theorem filter_neg_length (rs : List Res) :
    (rs.filter (fun r => !(r == Res.neg))).length
      = rs.count Res.one + rs.count Res.noneV := by
  induction rs with
  | nil => rfl
  | cons r t ih => cases r <;> simp [List.filter_cons, List.count_cons, ih] <;> omega

theorem filter_neg_count_one (rs : List Res) :
    (rs.filter (fun r => !(r == Res.neg))).count Res.one = rs.count Res.one := by
  induction rs with
  | nil => rfl
  | cons r t ih => cases r <;> simp [List.filter_cons, List.count_cons, ih]

/-- C2 (amended): the rate the code computes is the claim's formula
(Confirmed over all legs) applied only to the sub-list of legs *not*
forced by the guard: the `-1` entries are excluded from the denominator
(and from the failure condition), rather than counted as Inapplicable. -/
theorem rate_ignores_guard_forced_legs (rs : List Res) :
    pyRate rs = specRate (rs.filter (fun r => !(r == Res.neg))) := by
  rw [pyRate, specRate, filter_neg_length, filter_neg_count_one]
  by_cases h : rs.count Res.one + rs.count Res.noneV = 0
  · rw [if_pos h, if_pos h]
  · rw [if_neg h, if_neg h]
    congr 1
    push_cast
    ring

/-- C2 counterexample: with one Confirmed leg and one guard-forced leg the
code reports 100%, while the claim's formula (guard-forced legs in the
denominator) gives 50%. -/
theorem rate_counterexample_guarded_leg :
    pyRate [Res.one, Res.neg] = some 100 ∧
      specRate [Res.one, Res.neg] = some 50 ∧ (100 : ℚ) ≠ 50 := by
  have hc1 : List.count Res.one [Res.one, Res.neg] = 1 := by decide
  have hcn : List.count Res.noneV [Res.one, Res.neg] = 0 := by decide
  refine ⟨?_, ?_, by norm_num⟩
  · rw [pyRate, hc1, hcn]
    norm_num
  · rw [specRate, hc1]
    norm_num

/-- C6 (amended): the finalization divides by zero (the modelled
`NoDataError`) exactly when no leg yielded `1` or an evaluated `None` —
equivalently, when every leg in the dataset was forced to `-1` by the
guard (or there are no legs at all); in particular it can raise even when
legs exist and each produced a (guard-forced) Inapplicable outcome. -/
theorem rate_failure_iff_all_guard_forced (rs : List Res) :
    pyRate rs = none ↔ ∀ r ∈ rs, r = Res.neg := by
  constructor
  · intro h
    by_cases hc : rs.count Res.one + rs.count Res.noneV = 0
    · intro r hr
      cases r with
      | one =>
        have h1 : rs.count Res.one = 0 := by omega
        exact absurd hr (List.count_eq_zero.mp h1)
      | noneV =>
        have h2 : rs.count Res.noneV = 0 := by omega
        exact absurd hr (List.count_eq_zero.mp h2)
      | neg => rfl
    · rw [pyRate, if_neg hc] at h
      exact absurd h (by simp)
  · intro h
    have h1 : rs.count Res.one = 0 :=
      List.count_eq_zero.mpr (fun hmem => by have := h _ hmem; simp at this)
    have h2 : rs.count Res.noneV = 0 :=
      List.count_eq_zero.mpr (fun hmem => by have := h _ hmem; simp at this)
    rw [pyRate, h1, h2]
    simp

/-- C6 witness: the amended equivalence applied at the concrete dataset
whose two legs were both forced by the guard. -/
theorem rate_failure_iff_all_guard_forced_witness :
    pyRate [Res.neg, Res.neg] = none :=
  (rate_failure_iff_all_guard_forced [Res.neg, Res.neg]).mpr (by decide)

/-- C6 counterexample: a dataset with one leg, whose outcome was forced
Inapplicable by the guard, still raises — though the claim says the rate
computation never raises when at least one leg produced an outcome. -/
theorem rate_failure_with_guarded_leg_example :
    pyRate [Res.neg] = none ∧ ([Res.neg] : List Res).length = 1 ∧
      specRate [Res.neg] = some 0 := by
  have hc1 : List.count Res.one [Res.neg] = 0 := by decide
  have hcn : List.count Res.noneV [Res.neg] = 0 := by decide
  refine ⟨?_, rfl, ?_⟩
  · rw [pyRate, hc1, hcn]
    norm_num
  · rw [specRate, hc1]
    norm_num

/-! ### The per-storm track aggregator (source lines 183-252)

An observation row is represented by its already-parsed fields; the raw
radii field slice is kept verbatim because the maximum-index selection
works on the raw strings.  The geodesic engine (`pygeodesy`) is an
external collaborator: the position type `P`, the projection `pt`
(`point(row)`) and the oracle `geo` (`distanceTo`/`bearingTo`, already
divided by 1852) are parameters of the embedding. -/

structure Obs where
  dateS : String
  timeS : String
  landfall : Bool
  hu : Bool
  latS : String
  lonS : String
  wind : ℤ
  year : ℕ
  radii : List String

/-- `curr_time = storm_date(row) + storm_time(row)` (string concatenation). -/
def tsOf (o : Obs) : String :=
  o.dateS ++ o.timeS

/-- Source lines 200-203: update the peak-wind state (running maximum,
with its date/time) on a strictly greater wind.  The initial values
`max_wind = 0, d = 0, t = 0` are modelled with `none` standing for the
untouched integer pair `d = t = 0`. -/
def windStep (st : ℤ × Option (String × String)) (o : Obs) :
    ℤ × Option (String × String) :=
  if o.wind > st.1 then (o.wind, some (o.dateS, o.timeS)) else st

/-- The peak-wind tracker over a storm's observation sequence. -/
def peakTrack (l : List Obs) : ℤ × Option (String × String) :=
  l.foldl windStep (0, none)

/-- Running per-storm state of the track aggregator. -/
structure AggState where
  dates : List String
  maxWind : ℤ
  dt : Option (String × String)
  landfalls : ℕ
  hYears : List ℕ
  sumDist : ℚ
  prop : List ℚ
  outcomes : List Res

/-- Source lines 197-207: the per-row bookkeeping (date list, peak wind,
landfall count, hurricane years). -/
def observe (st : AggState) (o : Obs) : AggState :=
  { st with
    dates := st.dates ++ [o.dateS]
    maxWind := (windStep (st.maxWind, st.dt) o).1
    dt := (windStep (st.maxWind, st.dt) o).2
    landfalls := st.landfalls + (if o.landfall then 1 else 0)
    hYears := st.hYears ++ (if o.hu then [o.year] else []) }

def initAgg : AggState :=
  ⟨[], 0, none, 0, [], 0, [], []⟩

/-- Source lines 196-230: the streaming loop over a storm's rows.  For
each consecutive pair it computes distance and bearing (0,0 on identical
points), the elapsed hours, the propagation speed `distance /
hour_diff(...)` — *unguarded*, so a zero elapsed time is the uncaught
`ZeroDivisionError`, modelled by `pyDiv` returning `none` — and the leg's
hypothesis outcome from the departed row's radii. -/
def stormLoop {P : Type} [DecidableEq P] (pt : Obs → P) (geo : P → P → ℚ × ℚ) :
    Obs → List Obs → AggState → Option AggState
  | cur, [], st => some (observe st cur)
  | cur, nxt :: rest, st =>
    let st1 := observe st cur
    let db := if pt cur ≠ pt nxt then geo (pt cur) (pt nxt) else ((0 : ℚ), (0 : ℚ))
    match hour_diff (tsOf cur) (tsOf nxt) with
    | none => none
    | some hd =>
      match pyDiv db.1 hd with
      | none => none
      | some sp =>
        match legOutcome cur.radii db.2 with
        | none => none
        | some out =>
          stormLoop pt geo nxt rest
            { st1 with
              sumDist := st1.sumDist + db.1
              prop := st1.prop ++ [sp]
              outcomes := st1.outcomes ++ [out] }

/-- The per-storm report printed at source lines 231-252. -/
structure StormSummary where
  startDate : String
  endDate : String
  landfalls : ℕ
  peakWind : ℤ
  peakDT : Option (String × String)
  everHurricane : Bool
  totalDist : ℚ
  maxSpeed : ℚ
  meanSpeed : ℚ
  outcomes : List Res

/-- Source lines 231-252: finalize a storm.  `date[0]` on an empty date
list would raise (`none`); with one observation start and end coincide;
with no legs both speeds print as 0. -/
def finalize (st : AggState) : Option StormSummary :=
  match st.dates with
  | [] => none
  | d0 :: _ =>
    some
      { startDate := d0
        endDate := if st.dates.length > 1 then st.dates.getLastD d0 else d0
        landfalls := st.landfalls
        peakWind := st.maxWind
        peakDT := st.dt
        everHurricane := decide (st.hYears ≠ [])
        totalDist := st.sumDist
        maxSpeed := if st.prop.length = 0 then 0 else pyMaxQ st.prop
        meanSpeed :=
          if st.prop.length = 0 then 0
          else if st.prop.length = 1 then st.prop.headD 0
          else st.prop.sum / (st.prop.length : ℚ)
        outcomes := st.outcomes }

/-- One storm, end to end: stream the rows, then finalize. -/
def processStorm {P : Type} [DecidableEq P] (pt : Obs → P) (geo : P → P → ℚ × ℚ)
    (o : Obs) (rest : List Obs) : Option StormSummary :=
  match stormLoop pt geo o rest initAgg with
  | none => none
  | some st => finalize st

/-- A concrete observation used by the witnesses below. -/
def mkObs (d t : String) (w : ℤ) : Obs :=
  ⟨d, t, false, false, "28.0N", "94.8W", w, 2001, ["0"]⟩

/-- C9: a storm with a single observation finalizes with start = end,
total distance 0, maximum and mean propagation speed 0, and no hypothesis
outcomes, for any position type and geodesic oracle. -/
theorem single_observation_summary {P : Type} [DecidableEq P]
    (pt : Obs → P) (geo : P → P → ℚ × ℚ) (o : Obs) (s : StormSummary)
    (h : processStorm pt geo o [] = some s) :
    s.startDate = s.endDate ∧ s.totalDist = 0 ∧ s.maxSpeed = 0 ∧
      s.meanSpeed = 0 ∧ s.outcomes = [] := by
  have hval : processStorm pt geo o [] =
      some
        { startDate := o.dateS
          endDate := o.dateS
          landfalls := 0 + if o.landfall then 1 else 0
          peakWind := (windStep (0, none) o).1
          peakDT := (windStep (0, none) o).2
          everHurricane := decide ((([] : List ℕ) ++ if o.hu then [o.year] else []) ≠ [])
          totalDist := 0
          maxSpeed := 0
          meanSpeed := 0
          outcomes := [] } := rfl
  rw [hval] at h
  obtain rfl := Option.some.inj h
  exact ⟨rfl, rfl, rfl, rfl, rfl⟩

/-- C9 witness: the single-observation property at a concrete observation,
with the trivial position type and a constant geodesic oracle. -/
theorem single_observation_summary_witness :
    ∃ s, processStorm (fun _ : Obs => ()) (fun _ _ => ((0 : ℚ), (0 : ℚ)))
        (mkObs "20010101" "0600" 45) [] = some s ∧
      (s.startDate = s.endDate ∧ s.totalDist = 0 ∧ s.maxSpeed = 0 ∧
        s.meanSpeed = 0 ∧ s.outcomes = []) :=
  ⟨_, rfl, single_observation_summary (fun _ : Obs => ())
    (fun _ _ => ((0 : ℚ), (0 : ℚ))) (mkObs "20010101" "0600" 45) _ rfl⟩

theorem stormLoop_none_of_zero_elapsed {P : Type} [DecidableEq P]
    (pt : Obs → P) (geo : P → P → ℚ × ℚ) :
    ∀ (rest : List Obs) (o : Obs) (st : AggState),
      (∃ p ∈ (o :: rest).zip rest, hour_diff (tsOf p.1) (tsOf p.2) = some 0) →
      stormLoop pt geo o rest st = none := by
  intro rest
  induction rest with
  | nil =>
    intro o st h
    rcases h with ⟨p, hp, _⟩
    simp at hp
  | cons nxt rest' ih =>
    intro o st h
    rcases h with ⟨p, hp, hp0⟩
    rw [List.zip_cons_cons] at hp
    rcases List.mem_cons.mp hp with rfl | hptail
    · simp only [stormLoop, hp0]
      simp [pyDiv]
    · simp only [stormLoop]
      rcases h1 : hour_diff (tsOf o) (tsOf nxt) with _ | hdv
      · simp
      · simp only [h1]
        split
        · rfl
        · split
          · rfl
          · exact ih nxt _ ⟨p, hptail, hp0⟩

/-- C3 (amended): a consecutive observation pair with elapsed time 0 is
*not* excluded — the speed `distance / hour_diff(...)` is computed
unguarded, so processing a storm containing such a leg always aborts with
the modelled `ZeroDivisionError`. -/
theorem zero_elapsed_leg_aborts_run {P : Type} [DecidableEq P]
    (pt : Obs → P) (geo : P → P → ℚ × ℚ) (o : Obs) (rest : List Obs)
    (h : ∃ p ∈ (o :: rest).zip rest, hour_diff (tsOf p.1) (tsOf p.2) = some 0) :
    processStorm pt geo o rest = none := by
  have hnone := stormLoop_none_of_zero_elapsed pt geo rest o initAgg h
  simp [processStorm, hnone]

/-- C3 witness: the abort applied to a concrete pair 24 hours apart —
whose elapsed time evaluates to 0 because `timedelta.seconds` drops the
whole day. -/
theorem zero_elapsed_leg_aborts_run_witness :
    processStorm (fun _ : Obs => ()) (fun _ _ => ((0 : ℚ), (0 : ℚ)))
      (mkObs "20010101" "0600" 45) [mkObs "20010102" "0600" 50] = none :=
  zero_elapsed_leg_aborts_run _ _ _ _
    ⟨(mkObs "20010101" "0600" 45, mkObs "20010102" "0600" 50),
     show _ ∈ [(mkObs "20010101" "0600" 45, mkObs "20010102" "0600" 50)] from
       List.mem_singleton.mpr rfl,
     by
      show hour_diff "200101010600" "200101020600" = some 0
      have hp1 : parseTS "200101010600" = some 1051898760 := by decide
      have hp2 : parseTS "200101020600" = some 1051900200 := by decide
      rw [hour_diff, hp1, hp2]
      norm_num⟩

/-- C3 counterexample: two consecutive observations with identical
timestamps make `hour_diff` return 0 and the unguarded division fail:
the claim that such a leg is excluded without a division-by-zero failure
is false. -/
theorem zero_elapsed_leg_divzero_example :
    hour_diff (tsOf (mkObs "20010101" "0600" 45)) (tsOf (mkObs "20010101" "0600" 50))
        = some 0 ∧
    pyDiv (0 : ℚ) 0 = none ∧
    processStorm (fun _ : Obs => ()) (fun _ _ => ((0 : ℚ), (0 : ℚ)))
      (mkObs "20010101" "0600" 45) [mkObs "20010101" "0600" 50] = none := by
  have hts : hour_diff (tsOf (mkObs "20010101" "0600" 45))
      (tsOf (mkObs "20010101" "0600" 50)) = some 0 := by
    show hour_diff "200101010600" "200101010600" = some 0
    have hp : parseTS "200101010600" = some 1051898760 := by decide
    rw [hour_diff, hp]
    norm_num
  refine ⟨hts, by simp [pyDiv], ?_⟩
  simp only [processStorm, stormLoop, hts]
  norm_num [pyDiv]

theorem windFold_fst (l : List Obs) :
    ∀ st : ℤ × Option (String × String),
      (l.foldl windStep st).1 = l.foldl (fun a o => max a o.wind) st.1 := by
  induction l with
  | nil => intro st; rfl
  | cons o t ih =>
    intro st
    rw [List.foldl_cons, List.foldl_cons, ih]
    congr 1
    by_cases h : o.wind > st.1 <;> simp [windStep, h] <;> omega

theorem le_foldl_max (l : List Obs) :
    ∀ a : ℤ, a ≤ l.foldl (fun a o => max a o.wind) a := by
  induction l with
  | nil => intro a; exact le_refl a
  | cons o t ih =>
    intro a
    rw [List.foldl_cons]
    calc a ≤ max a o.wind := le_max_left _ _
      _ ≤ _ := by
        have h := ih (max a o.wind)
        exact h

theorem foldl_max_mono (l : List Obs) :
    ∀ a b : ℤ, a ≤ b →
      l.foldl (fun a o => max a o.wind) a ≤ l.foldl (fun a o => max a o.wind) b := by
  induction l with
  | nil => intro a b h; exact h
  | cons o t ih =>
    intro a b h
    rw [List.foldl_cons, List.foldl_cons]
    exact ih _ _ (by omega)

theorem windFold_snd_of_no_update (l : List Obs) :
    ∀ st : ℤ × Option (String × String),
      (l.foldl windStep st).1 = st.1 → (l.foldl windStep st).2 = st.2 := by
  induction l with
  | nil => intro st _; rfl
  | cons o t ih =>
    intro st h
    rw [List.foldl_cons] at h ⊢
    by_cases hw : o.wind > st.1
    · exfalso
      have hst : windStep st o = (o.wind, some (o.dateS, o.timeS)) := by
        simp [windStep, hw]
      rw [hst] at h
      have hmono : o.wind ≤ (t.foldl windStep (o.wind, some (o.dateS, o.timeS))).1 := by
        rw [windFold_fst]
        exact le_foldl_max t o.wind
      omega
    · have hst : windStep st o = st := by simp [windStep, hw]
      rw [hst] at h ⊢
      exact ih st h

theorem windFold_first_attainer (l : List Obs) :
    ∀ st : ℤ × Option (String × String),
      st.1 < (l.foldl windStep st).1 →
      ∃ l1 o l2, l = l1 ++ o :: l2 ∧ o.wind = (l.foldl windStep st).1 ∧
        (∀ p ∈ l1, p.wind < (l.foldl windStep st).1) ∧
        (l.foldl windStep st).2 = some (o.dateS, o.timeS) := by
  induction l with
  | nil => intro st h; exact absurd h (lt_irrefl _)
  | cons o t ih =>
    intro st h
    rw [List.foldl_cons] at h ⊢
    by_cases hw : o.wind > st.1
    · have hst : windStep st o = (o.wind, some (o.dateS, o.timeS)) := by
        simp [windStep, hw]
      rw [hst] at h ⊢
      by_cases hend : o.wind < (t.foldl windStep (o.wind, some (o.dateS, o.timeS))).1
      · obtain ⟨l1, ob, l2, heq, hv, hfl, hsnd⟩ := ih _ hend
        refine ⟨o :: l1, ob, l2, by rw [heq, List.cons_append], hv, ?_, hsnd⟩
        intro p hp
        rcases List.mem_cons.mp hp with rfl | hpl
        · exact hend
        · exact hfl p hpl
      · have hge : o.wind ≤ (t.foldl windStep (o.wind, some (o.dateS, o.timeS))).1 := by
          rw [windFold_fst]
          exact le_foldl_max t o.wind
        have heq1 : (t.foldl windStep (o.wind, some (o.dateS, o.timeS))).1 = o.wind := by
          omega
        have hsnd := windFold_snd_of_no_update t _ heq1
        exact ⟨[], o, t, rfl, heq1.symm, by simp, by rw [hsnd]⟩
    · have hst : windStep st o = st := by simp [windStep, hw]
      rw [hst] at h ⊢
      obtain ⟨l1, ob, l2, heq, hv, hfl, hsnd⟩ := ih st h
      refine ⟨o :: l1, ob, l2, by rw [heq, List.cons_append], hv, ?_, hsnd⟩
      intro p hp
      rcases List.mem_cons.mp hp with rfl | hpl
      · omega
      · exact hfl p hpl

theorem foldl_max_nonpos (l : List Obs) :
    ∀ a : ℤ, a ≤ 0 → (∀ o ∈ l, o.wind ≤ 0) →
      l.foldl (fun a o => max a o.wind) a ≤ 0 := by
  induction l with
  | nil => intro a ha _; exact ha
  | cons o t ih =>
    intro a ha hle
    rw [List.foldl_cons]
    exact ih _ (by have := hle o (by simp); omega)
      (fun o' ho' => hle o' (by simp [ho']))

/-- C10: the peak-wind tracker starts from maximum 0 and updates only on
a strictly greater wind.  Its reported maximum is the fold of `max` from
0; when some observation has positive wind, the reported timestamp is
that of the chronologically first observation attaining the maximum (ties
report the first); when every observation's wind is ≤ 0 (e.g. the −99
sentinel) the peak stays 0 and the date/time stay the untouched integer
zeros (modelled `none`). -/
theorem peak_wind_tracker_spec (l : List Obs) :
    (peakTrack l).1 = l.foldl (fun a o => max a o.wind) 0 ∧
    ((∀ o ∈ l, o.wind ≤ 0) → (peakTrack l).1 = 0 ∧ (peakTrack l).2 = none) ∧
    (0 < (peakTrack l).1 →
      ∃ l1 o l2, l = l1 ++ o :: l2 ∧ o.wind = (peakTrack l).1 ∧
        (∀ p ∈ l1, p.wind < (peakTrack l).1) ∧
        (peakTrack l).2 = some (o.dateS, o.timeS)) := by
  refine ⟨windFold_fst l (0, none), fun hle => ?_, fun hpos => ?_⟩
  · have hle0 := foldl_max_nonpos l 0 (le_refl 0) hle
    have hge : (0 : ℤ) ≤ l.foldl (fun a o => max a o.wind) 0 := le_foldl_max l 0
    have hfst : (peakTrack l).1 = 0 := by
      rw [peakTrack, windFold_fst]
      show l.foldl (fun a o => max a o.wind) 0 = 0
      omega
    exact ⟨hfst, windFold_snd_of_no_update l (0, none) hfst⟩
  · exact windFold_first_attainer l (0, none) hpos

/-- C10 witness: the tracker applied to a two-way tie at wind 50 (the
first observation's timestamp is reported) and to a storm whose only
observation carries the −99 sentinel (peak 0, timestamps untouched). -/
theorem peak_wind_tracker_spec_witness :
    (∃ l1 o l2,
      ([mkObs "20010101" "0000" 50, mkObs "20010101" "0600" 50] : List Obs)
          = l1 ++ o :: l2 ∧
        o.wind = (peakTrack [mkObs "20010101" "0000" 50, mkObs "20010101" "0600" 50]).1 ∧
        (∀ p ∈ l1,
          p.wind < (peakTrack [mkObs "20010101" "0000" 50, mkObs "20010101" "0600" 50]).1) ∧
        (peakTrack [mkObs "20010101" "0000" 50, mkObs "20010101" "0600" 50]).2
          = some (o.dateS, o.timeS)) ∧
    ((peakTrack [mkObs "18510601" "0000" (-99)]).1 = 0 ∧
      (peakTrack [mkObs "18510601" "0000" (-99)]).2 = none) :=
  ⟨(peak_wind_tracker_spec [mkObs "20010101" "0000" 50, mkObs "20010101" "0600" 50]).2.2
      (by decide),
   (peak_wind_tracker_spec [mkObs "18510601" "0000" (-99)]).2.1 (by decide)⟩

/-! ### The yearly dataset summary (source lines 258-265) -/

/-- The body of the `while start_year <= year[-1]` loop, compiled with the
loop's exact trip count as fuel: each iteration reports the storm count
`Counter(year)[y]` and hurricane count `Counter(hurricane)[y]` for the
current year, then increments it. -/
def summaryLoopF : ℕ → ℕ → List ℕ → List ℕ → List (ℕ × ℕ × ℕ)
  | 0, _, _, _ => []
  | n + 1, y, years, hurr =>
    (y, years.count y, hurr.count y) :: summaryLoopF n (y + 1) years hurr

/-- Source lines 258-265: the yearly report runs from the first storm's
year `year[0]` through the last storm's year `year[-1]` inclusive. -/
def yearlySummary (years hurr : List ℕ) : List (ℕ × ℕ × ℕ) :=
  summaryLoopF (years.getLastD 0 + 1 - years.headD 0) (years.headD 0) years hurr

theorem summaryLoopF_eq (years hurr : List ℕ) :
    ∀ (n y : ℕ), summaryLoopF n y years hurr
      = (List.range' y n).map (fun z => (z, years.count z, hurr.count z)) := by
  intro n
  induction n with
  | zero => intro y; rfl
  | succ m ih =>
    intro y
    show (y, years.count y, hurr.count y) :: summaryLoopF m (y + 1) years hurr = _
    rw [ih, List.range'_succ, List.map_cons]

/-- C8: for a non-empty dataset the yearly report has exactly one entry
per year from the first storm's year through the last storm's year,
ascending; every entry carries the dataset's storm and hurricane counts
for that year, and a year with no storms reports 0 for both (the
hurricane-year list only ever receives years that are also storm years). -/
theorem yearly_summary_covers_year_range (years hurr : List ℕ)
    (hne : years ≠ []) (hsub : ∀ y ∈ hurr, y ∈ years) :
    ((yearlySummary years hurr).map Prod.fst
        = List.range' (years.headD 0) (years.getLastD 0 + 1 - years.headD 0)) ∧
    (∀ y : ℕ, years.headD 0 ≤ y → y ≤ years.getLastD 0 →
      (y, years.count y, hurr.count y) ∈ yearlySummary years hurr) ∧
    (∀ e ∈ yearlySummary years hurr,
      e.2.1 = years.count e.1 ∧ e.2.2 = hurr.count e.1) ∧
    (∀ e ∈ yearlySummary years hurr, e.1 ∉ years → e.2.1 = 0 ∧ e.2.2 = 0) := by
  have hcf := summaryLoopF_eq years hurr
    (years.getLastD 0 + 1 - years.headD 0) (years.headD 0)
  refine ⟨?_, ?_, ?_, ?_⟩
  · rw [yearlySummary, hcf, List.map_map]
    exact List.map_id _
  · intro y h1 h2
    rw [yearlySummary, hcf]
    refine List.mem_map.mpr ⟨y, ?_, rfl⟩
    rw [List.mem_range'_1]
    omega
  · intro e he
    rw [yearlySummary, hcf] at he
    rcases List.mem_map.mp he with ⟨z, _, rfl⟩
    exact ⟨rfl, rfl⟩
  · intro e he hnot
    rw [yearlySummary, hcf] at he
    rcases List.mem_map.mp he with ⟨z, _, rfl⟩
    have h1 : years.count z = 0 := List.count_eq_zero.mpr hnot
    have h2 : hurr.count z = 0 :=
      List.count_eq_zero.mpr (fun hmem => hnot (hsub z hmem))
    exact ⟨h1, h2⟩

/-- C8 witness: the spec's example — storms in 2001 and 2003 only; 2002 is
reported with storm count 0 and hurricane count 0. -/
theorem yearly_summary_covers_year_range_witness :
    ((2002 : ℕ), ([2001, 2003] : List ℕ).count 2002, ([2003] : List ℕ).count 2002)
        ∈ yearlySummary [2001, 2003] [2003] ∧
      ([2001, 2003] : List ℕ).count 2002 = 0 ∧ ([2003] : List ℕ).count 2002 = 0 :=
  ⟨(yearly_summary_covers_year_range [2001, 2003] [2003] (by decide)
      (by decide)).2.1 2002 (by decide) (by decide), by decide, by decide⟩

/-- C5 witness: the amended theorem applied at concrete angles 100 and 400. -/
theorem norm_strict_wrap_witness :
    norm (400 : ℚ) = 400 - 360 ∧ norm (100 : ℚ) = 100 ∧
      (0 ≤ norm (100 : ℚ) ∧ norm (100 : ℚ) < 360 ∧
        pytrunc (norm (100 : ℚ) / 90) ∈ ([0, 1, 2, 3] : List ℤ)) :=
  ⟨(norm_strict_wrap 400).1 (by norm_num),
   (norm_strict_wrap 100).2.1 (by norm_num),
   (norm_strict_wrap 100).2.2 (by norm_num) (by norm_num) (by norm_num)⟩

end Hurricane
